import Mathlib

set_option maxRecDepth 16384

/-!
Shallow embedding of `extract_cis_to_word.py` (CIS-To-Word-Specific-Param).

The script's parsing core works on a linear sequence of text lines.  All
string predicates below are direct translations of the Python regular
expressions and string methods used by the script.  Python's `re` module is
modelled at the character level; the semantics coincide with Python's on the
strings the pipeline actually feeds to these predicates (pieces of a
`split("\n")` and space-joins thereof, hence newline-free, ASCII text).
-/

namespace CisToWord

/-- Python `\s` / `str.isspace` for the ASCII range: the whitespace class
used by `strip`, `rstrip`, and the `\s` atoms of the script's patterns. -/
def pyIsSpace (c : Char) : Bool :=
  c = ' ' || c = '\t' || c = '\n' || c = '\r' || c = '\x0b' || c = '\x0c'

/-- Python's `[ \t]` class used by `collapse_spaces`. -/
def isSpaceTab (c : Char) : Bool := c = ' ' || c = '\t'

def dropTrailing (p : Char → Bool) (l : List Char) : List Char :=
  (l.reverse.dropWhile p).reverse

/-- Python `str.lstrip()` (whitespace). -/
def pyLstrip (s : String) : String := ⟨s.toList.dropWhile pyIsSpace⟩

/-- Python `str.rstrip()` (whitespace). -/
def pyRstrip (s : String) : String := ⟨dropTrailing pyIsSpace s.toList⟩

/-- Python `str.strip()` (whitespace). -/
def pyStrip (s : String) : String := ⟨dropTrailing pyIsSpace (s.toList.dropWhile pyIsSpace)⟩

/-- Python `str.rstrip(":")`: remove every trailing colon. -/
def rstripColons (s : String) : String := ⟨dropTrailing (fun c => c = ':') s.toList⟩

/-- Python `str.lstrip(".")`: remove every leading dot. -/
def lstripDots (s : String) : String := ⟨s.toList.dropWhile (fun c => c = '.')⟩

/-- Python `str.lower()` (ASCII case folding suffices for the script's data). -/
def lowerStr (s : String) : String := ⟨s.toList.map Char.toLower⟩

/-- One step of `re.sub(r"[ \t]+", " ", s)`: squeeze space/tab runs. -/
def squeezeST : Bool → List Char → List Char
  | _, [] => []
  | inRun, c :: rest =>
    if isSpaceTab c then
      if inRun then squeezeST true rest else ' ' :: squeezeST true rest
    else c :: squeezeST false rest

/-- `collapse_spaces`: `re.sub(r"[ \t]+", " ", s).strip()`. -/
def collapse_spaces (s : String) : String :=
  pyStrip ⟨squeezeST false s.toList⟩

/-- `s.startswith(pre)` via char lists (kernel-reducible). -/
def startsWithL (s pre : String) : Bool := pre.toList.isPrefixOf s.toList

/-- `s.endswith(suf)` via char lists (kernel-reducible). -/
def endsWithL (s suf : String) : Bool := suf.toList.reverse.isPrefixOf s.toList.reverse

/-- Python `s.split(sep)` for a one-char separator, at the char level. -/
def splitCharL (sep : Char) : List Char → List (List Char)
  | [] => [[]]
  | c :: rest =>
    if c = sep then [] :: splitCharL sep rest
    else
      match splitCharL sep rest with
      | g :: gs => (c :: g) :: gs
      | [] => [[c]]

/-- Python `s.split(sep)` for a one-char separator. -/
def splitChar (sep : Char) (s : String) : List String :=
  (splitCharL sep s.toList).map (fun g => ⟨g⟩)

/-- Python `code.split('.')`. -/
def splitDots (code : String) : List String := splitChar '.' code

/-- The `(?:\.\d+)*` tail of `NUMERIC_HEADER_RX`'s code group: greedily
consume groups of a dot followed by one or more digits.  Structural
recursion on a fuel argument (initialised to the list length, which the
loop can never exhaust since every round consumes at least two chars). -/
def dotGroupsF : Nat → List Char → List Char
  | 0, _ => []
  | fuel + 1, l =>
    match l with
    | '.' :: rest =>
      let ds := rest.takeWhile Char.isDigit
      if ds.isEmpty then [] else ('.' :: ds) ++ dotGroupsF fuel (rest.dropWhile Char.isDigit)
    | _ => []

def dotGroups (l : List Char) : List Char := dotGroupsF l.length l

/-- Greedy parse of `\d+(?:\.\d+)*` at the start of the char list; returns
`[]` when there is no leading digit. -/
def dottedCodeTake (l : List Char) : List Char :=
  let ds := l.takeWhile Char.isDigit
  if ds.isEmpty then [] else ds ++ dotGroups (l.dropWhile Char.isDigit)

/-- `NUMERIC_HEADER_RX.match(s)`: `^(?P<code>\d+(?:\.\d+)*)\s+(?P<title>.*)$`.
Returns the `code` and `title` groups on success.  A match exists exactly
when the greedy dotted code is followed by at least one whitespace char
(shorter backtracked codes always abut a digit or a dot, never whitespace);
the greedy `\s+` leaves `title` = everything after the whitespace run. -/
def numericHeaderMatch (s : String) : Option (String × String) :=
  let l := s.toList
  let code := dottedCodeTake l
  if code.isEmpty then none
  else
    match l.drop code.length with
    | [] => none
    | c :: rest =>
      if pyIsSpace c then some (⟨code⟩, ⟨rest.dropWhile pyIsSpace⟩) else none

/-- The `SECTION_NAMES` global of the script. -/
def SECTION_NAMES : List String :=
  ["Description", "Rationale", "Impact", "Audit", "Default Value",
   "Remediation", "References", "Profile Applicability", "CIS Controls"]

/-- `is_section_header`: strip, drop trailing colons, case-insensitive
membership in `SECTION_NAMES`. -/
def is_section_header (line : String) : Bool :=
  let s := rstripColons (pyStrip line)
  SECTION_NAMES.any (fun name => lowerStr s == lowerStr name)

/-- `TOC_TITLE_RX.match(s)`: `^Table of Contents$`, case-insensitive. -/
def tocTitleMatch (s : String) : Bool :=
  lowerStr s == "table of contents"

/-- `TOC_DOT_LEADER_RX.search(s)`: `\.\.\.+\s*\d+$` — the line ends with a
run of three or more dots, optional whitespace, then digits. -/
def tocDotLeaderSearch (s : String) : Bool :=
  let r := s.toList.reverse
  let ds := r.takeWhile Char.isDigit
  let afterWs := (r.dropWhile Char.isDigit).dropWhile pyIsSpace
  !ds.isEmpty && (afterWs.takeWhile (fun c => c = '.')).length ≥ 3

/-- `TRAILING_PAGE_NUM_RX.search(s)`: `\s+\d+$` — the line ends with
whitespace followed by digits. -/
def trailingPageNumSearch (s : String) : Bool :=
  let r := s.toList.reverse
  let ds := r.takeWhile Char.isDigit
  match r.dropWhile Char.isDigit with
  | [] => false
  | c :: _ => !ds.isEmpty && pyIsSpace c

/-- `PAGE_FOOTER_RX.match(s)`: `^Page\s+\d+\s*$`, case-insensitive. -/
def pageFooterMatch (s : String) : Bool :=
  let l := s.toList.map Char.toLower
  l.take 4 == "page".toList &&
    (let rest := l.drop 4
     match rest with
     | [] => false
     | c :: _ =>
       pyIsSpace c &&
         (let afterWs := rest.dropWhile pyIsSpace
          let ds := afterWs.takeWhile Char.isDigit
          !ds.isEmpty && (afterWs.dropWhile Char.isDigit).all pyIsSpace))

/-- `is_toc_like`. -/
def is_toc_like (line : String) : Bool :=
  tocDotLeaderSearch line || pageFooterMatch line ||
    (trailingPageNumSearch line && (numericHeaderMatch line).isSome)

/-- The `TABLE_HEADER_STRINGS` global of the script. -/
def TABLE_HEADER_STRINGS : List String :=
  ["control reference id", "control name & description", "description", "remediation"]

/-- `is_table_header_line`. -/
def is_table_header_line (line : String) : Bool :=
  TABLE_HEADER_STRINGS.any (fun t => lowerStr (pyStrip line) == t)

/-- `is_url_footnote`: a numeric-header-shaped line whose title remainder
(stripped, leading dots removed, stripped again) starts with a URL scheme. -/
def is_url_footnote (line : String) : Bool :=
  match numericHeaderMatch line with
  | none => false
  | some (_, title) =>
    let t := lowerStr (pyLstrip (lstripDots (pyStrip title)))
    startsWithL t "http://" || startsWithL t "https://"

/-- The breaking-line test of `text_to_lines` (the big `if` over the raw
line), with the disjuncts in source order. -/
def isBreakingLine (line : String) : Bool :=
  (numericHeaderMatch line).isSome || is_section_header line ||
    tocTitleMatch (pyStrip line) || is_toc_like line ||
    pageFooterMatch line || is_url_footnote line || is_table_header_line line

/-- The kinds of breaking line that `text_to_lines` drops instead of
emitting ("Drop URL footnotes and static table headers and
Table of Contents title"); note `TOC_TITLE_RX` is matched on the
unstripped line here. -/
def dropOnEmit (line : String) : Bool :=
  is_url_footnote line || is_table_header_line line || tocTitleMatch line

/-- `if buf: lines.append(collapse_spaces(buf))`. -/
def flushBuf (buf : String) : List String :=
  if buf = "" then [] else [collapse_spaces buf]

/-- The narrative-buffer append of `text_to_lines`. -/
def bufAppend (buf line : String) : String :=
  if buf = "" then pyStrip line
  else buf ++ (if endsWithL buf " " then "" else " ") ++ pyStrip line

/-- The main loop of `text_to_lines` over the raw lines of
`text.split("\n")`, carrying the narrative buffer. -/
def text_to_lines_go : List String → String → List String
  | [], buf => flushBuf buf
  | raw :: rest, buf =>
    let line := pyRstrip raw
    if pyStrip line = "" then flushBuf buf ++ text_to_lines_go rest ""
    else if isBreakingLine line then
      flushBuf buf ++ (if dropOnEmit line then [] else [collapse_spaces line]) ++
        text_to_lines_go rest ""
    else text_to_lines_go rest (bufAppend buf line)

/-- The final scrub of `text_to_lines`: keep a produced line unless it still
looks like a TOC title, a TOC artifact, or a table-header caption. -/
def scrubKeep (ln : String) : Bool :=
  !(tocTitleMatch ln || is_toc_like ln || is_table_header_line ln)

/-- `text_to_lines` applied to an already-split list of raw lines. -/
def text_to_lines_list (raws : List String) : List String :=
  (text_to_lines_go raws "").filter scrubKeep

/-- `text_to_lines`, from `text.split("\n")`. -/
def text_to_lines (text : String) : List String :=
  text_to_lines_list (splitChar '\n' text)

/-- Python `\w` (ASCII range). -/
def isWordChar (c : Char) : Bool := c.isAlphanum || c = '_'

/-- `re.sub(r"(\w)-\n(\w)", r"\1\2", text)`: rejoin hyphen-wrapped words,
left to right, non-overlapping.  Fuel-based structural recursion; every
round consumes at least one char, so fuel = length never runs out. -/
def dehyphenateF : Nat → List Char → List Char
  | 0, l => l
  | fuel + 1, l =>
    match l with
    | a :: '-' :: '\n' :: b :: rest =>
      if isWordChar a && isWordChar b then a :: b :: dehyphenateF fuel rest
      else a :: dehyphenateF fuel ('-' :: '\n' :: b :: rest)
    | c :: rest => c :: dehyphenateF fuel rest
    | [] => []

def dehyphenate (l : List Char) : List Char := dehyphenateF l.length l

/-- `normalize_text`: non-breaking spaces to spaces, drop carriage returns,
de-hyphenate wraps. -/
def normalize_text (text : String) : String :=
  let t1 := text.toList.map (fun c => if c = '\u00A0' then ' ' else c)
  ⟨dehyphenate (t1.filter (fun c => c ≠ '\r'))⟩

/-- The `Anchor` dataclass.  The Python field `end` is a Lean keyword and is
called `endIdx` here. -/
structure Anchor where
  code : String
  title : String
  start : Nat
  endIdx : Nat
  deriving DecidableEq, Repr

/-- The `Control` dataclass. -/
structure Control where
  cid : String
  title : String
  start : Nat
  endIdx : Nat
  deriving DecidableEq, Repr

/-- The `StructHeader` dataclass. -/
structure StructHeader where
  code : String
  title : String
  start : Nat
  endIdx : Nat
  deriving DecidableEq, Repr

def lineAt (lines : List String) (i : Nat) : String := lines.getD i ""

/-- The per-line filter of `gather_anchors`'s `raw_idxs` comprehension. -/
def isAnchorLine (ln : String) : Bool :=
  (numericHeaderMatch ln).isSome && !is_toc_like ln && !is_url_footnote ln

/-- `NUMERIC_HEADER_RX.match(ln).group("code")` (only used on matching
lines; `""` stands for the never-taken non-matching case). -/
def codeOf (ln : String) : String :=
  match numericHeaderMatch ln with
  | some (c, _) => c
  | none => ""

/-- `NUMERIC_HEADER_RX.match(ln).group("title").strip()`. -/
def titleOf (ln : String) : String :=
  match numericHeaderMatch ln with
  | some (_, t) => pyStrip t
  | none => ""

/-- `raw_idxs` of `gather_anchors`. -/
def rawAnchorIdxs (lines : List String) : List Nat :=
  (List.range lines.length).filter (fun i => isAnchorLine (lineAt lines i))

/-- The keep-first-occurrence-per-code pass of `gather_anchors` (the `seen`
dict), carrying the set of codes already seen. -/
def dedupByCode (lines : List String) : List Nat → List String → List Nat
  | [], _ => []
  | i :: is, seen =>
    let c := codeOf (lineAt lines i)
    if c ∈ seen then dedupByCode lines is seen
    else i :: dedupByCode lines is (c :: seen)

/-- `idxs` after `idxs.sort()` (insertion sort models Python's sort; the
keys are distinct indices, so any sort yields the same list). -/
def anchorIdxs (lines : List String) : List Nat :=
  List.insertionSort (· ≤ ·) (dedupByCode lines (rawAnchorIdxs lines) [])

/-- The anchor-building loop of `gather_anchors`: each index becomes an
`Anchor` whose `endIdx` is the next index, or `len(lines)` for the last. -/
def mkAnchors (lines : List String) : List Nat → List Anchor
  | [] => []
  | i :: rest =>
    { code := codeOf (lineAt lines i), title := titleOf (lineAt lines i),
      start := i,
      endIdx := match rest with | j :: _ => j | [] => lines.length } ::
      mkAnchors lines rest

/-- `gather_anchors`. -/
def gather_anchors (lines : List String) : List Anchor :=
  mkAnchors lines (anchorIdxs lines)

/-- The early-stop test shared by `header_block_text`,
`extract_intro_for_struct` and `extract_section` (the same five disjuncts,
written in different orders in the source, with identical value). -/
def isHbStop (ln : String) : Bool :=
  (numericHeaderMatch ln).isSome || is_section_header ln || is_toc_like ln ||
    is_table_header_line ln || is_url_footnote ln

/-- The bounded collection loop of `header_block_text`: take at most `span`
lines, stopping early at a stop line. -/
def takeUpTo : Nat → List String → List String
  | 0, _ => []
  | _, [] => []
  | n + 1, ln :: rest => if isHbStop ln then [] else ln :: takeUpTo n rest

/-- The lines strictly between an anchor's own line and its `endIdx`. -/
def followLines (start endIdx : Nat) (lines : List String) : List String :=
  (lines.drop (start + 1)).take (endIdx - (start + 1))

/-- `header_block_text`. -/
def header_block_text (a : Anchor) (lines : List String) (span : Nat) : String :=
  collapse_spaces (String.intercalate " "
    (lineAt lines a.start :: takeUpTo span (followLines a.start a.endIdx lines)))

/-- `re.search(r"\((?:Automated|Manual)\)\s*$", s)`: after discarding
trailing whitespace, the string ends with a status tag. -/
def endsWithStatusTag (s : String) : Bool :=
  let t := pyRstrip s
  endsWithL t "(Automated)" || endsWithL t "(Manual)"

/-- The fallback scan of `is_control_anchor`: walk the lines after the
anchor, stop at the next numeric header, succeed on a "Description" section
header. -/
def fallbackScan : List String → Bool
  | [] => false
  | ln :: rest =>
    if (numericHeaderMatch ln).isSome then false
    else if is_section_header ln && lowerStr (rstripColons (pyStrip ln)) == "description" then
      true
    else fallbackScan rest

/-- `is_control_anchor`. -/
def is_control_anchor (a : Anchor) (lines : List String) : Bool :=
  endsWithStatusTag (header_block_text a lines 3) ||
    fallbackScan (followLines a.start a.endIdx lines)

/-- The control title computed by `classify`:
`NUMERIC_HEADER_RX.match(hb).group("title").strip()` on the header block
(which always starts with the anchor's numeric header, so the match is
never `None` on reachable inputs). -/
def hbTitle (a : Anchor) (lines : List String) : String :=
  match numericHeaderMatch (header_block_text a lines 3) with
  | some (_, t) => pyStrip t
  | none => ""

def mkControl (a : Anchor) (lines : List String) : Control :=
  ⟨a.code, hbTitle a lines, a.start, a.endIdx⟩

def mkStruct (a : Anchor) : StructHeader :=
  ⟨a.code, a.title, a.start, a.endIdx⟩

/-- `controls.setdefault(code, c)` on an insertion-ordered map. -/
def setdefaultC (cs : List Control) (c : Control) : List Control :=
  if cs.any (fun x => x.cid == c.cid) then cs else cs ++ [c]

/-- `structs.setdefault(code, s)` on an insertion-ordered map. -/
def setdefaultS (ss : List StructHeader) (s : StructHeader) : List StructHeader :=
  if ss.any (fun x => x.code == s.code) then ss else ss ++ [s]

/-- The loop of `classify`, carrying both insertion-ordered maps. -/
def classifyGo (lines : List String) :
    List Anchor → List Control → List StructHeader → List Control × List StructHeader
  | [], cs, ss => (cs, ss)
  | a :: rest, cs, ss =>
    if is_control_anchor a lines then
      classifyGo lines rest (setdefaultC cs (mkControl a lines)) ss
    else classifyGo lines rest cs (setdefaultS ss (mkStruct a))

/-- `classify`. -/
def classify (anchors : List Anchor) (lines : List String) :
    List Control × List StructHeader :=
  classifyGo lines anchors [] []

/-- `extract_intro_for_struct`. -/
def extract_intro_for_struct (s : StructHeader) (lines : List String) : String :=
  pyStrip (String.intercalate "\n"
    ((followLines s.start s.endIdx lines).takeWhile (fun ln => !isHbStop ln)))

/-- The label test of `extract_section`:
`ln.strip().rstrip(":").lower() == section_name.lower()`. -/
def labelEq (name ln : String) : Bool :=
  lowerStr (rstripColons (pyStrip ln)) == lowerStr name

/-- The body-collection loop of `extract_section`. -/
def collectBody : List String → List String
  | [] => []
  | ln :: rest => if isHbStop ln then [] else ln :: collectBody rest

/-- The search loop of `extract_section`: Python's
`next(i for i, ln in enumerate(block) if ...)` plus the `StopIteration`
handler that returns `""`. -/
def extractSectionGo (name : String) : List String → String
  | [] => ""
  | ln :: rest =>
    if labelEq name ln then pyStrip (String.intercalate "\n" (collectBody rest))
    else extractSectionGo name rest

/-- `extract_section`. -/
def extract_section (block : List String) (name : String) : String :=
  extractSectionGo name block

/-- `lines[c.start:c.end]`, the record block handed to `extract_section`
by `write_word`. -/
def blockOf (c : Control) (lines : List String) : List String :=
  (lines.drop c.start).take (c.endIdx - c.start)

/-- Python `'.'.join(ps)`. -/
def dotJoin : List String → String
  | [] => ""
  | [p] => p
  | p :: ps => p ++ "." ++ dotJoin ps

/-- The descending loop `for L in range(len(parts)-1, 0, -1)` of
`longest_structural_parent`: `lspLoop parts smap l` tries component counts
`l, l-1, ..., 1`. -/
def lspLoop (parts : List String) (smap : List String) : Nat → Option String
  | 0 => none
  | l + 1 =>
    if dotJoin (parts.take (l + 1)) ∈ smap then some (dotJoin (parts.take (l + 1)))
    else lspLoop parts smap l

/-- `longest_structural_parent`; `smap` is the key set of `struct_map`. -/
def longest_structural_parent (code : String) (smap : List String) : Option String :=
  let parts := splitDots code
  match lspLoop parts smap (parts.length - 1) with
  | some p => some p
  | none => if parts.headD "" ∈ smap then some (parts.headD "") else none

/-- The orphan appends of `write_word`'s placement loop, in order. -/
def orphanControls (controls : List Control) (smap : List String) : List Control :=
  controls.filter (fun c => (longest_structural_parent c.cid smap).isNone)

/-- The appends to `buckets[p]` of `write_word`'s placement loop, in order. -/
def bucketControls (controls : List Control) (smap : List String) (p : String) :
    List Control :=
  controls.filter (fun c => longest_structural_parent c.cid smap == some p)

/-- `main` from text extraction onward: normalize, reconstruct lines, scan
anchors, classify, and abort (`SystemExit`, a non-zero exit) when zero
controls were detected; otherwise hand the data to `write_word`. -/
def runPipeline (raw : String) :
    Except String (List Control × List StructHeader × List String) :=
  let lines := text_to_lines (normalize_text raw)
  let cs := classify (gather_anchors lines) lines
  if cs.1.isEmpty then
    Except.error "No controls detected. Try adjusting detection heuristics."
  else Except.ok (cs.1, cs.2, lines)

/-! ## The spec's worked scenario (claim C1) -/

/-- The spec's scenario input as one raw text blob. -/
def scenarioText : String :=
  "4.1 Enable logging\nEnsure logging is enabled for all requests.\n4.1.1 Configure log level (Automated)\nDescription:\nSet the level to INFO or higher.\nRemediation:\nRun: set-log-level INFO\n4.2 Disable debug mode"

/-- The eight input lines of the spec's scenario. -/
def scenarioLines : List String :=
  ["4.1 Enable logging",
   "Ensure logging is enabled for all requests.",
   "4.1.1 Configure log level (Automated)",
   "Description:",
   "Set the level to INFO or higher.",
   "Remediation:",
   "Run: set-log-level INFO",
   "4.2 Disable debug mode"]

/-- C1, counterexample.  On the spec's own scenario the classifier emits
exactly one Record, for code 4.1.1, and its title is
"Configure log level (Automated)" — the status tag is part of the header
block's title remainder and `classify` never strips it — so the claimed
title "Configure log level" is wrong. -/
theorem C1_counterexample :
    (classify (gather_anchors scenarioLines) scenarioLines).1.map Control.title =
      ["Configure log level (Automated)"] ∧
    "Configure log level (Automated)" ≠ "Configure log level" := by
  constructor
  · rfl
  · decide

/-- C1, amended: running the pipeline on the eight scenario lines keeps all
eight as logical lines, classifies 4.1 and 4.2 as StructuralSections and
4.1.1 as the only Record — with title "Configure log level (Automated)",
the status tag included — extracts the stated Description and Remediation
from the record's block, places 4.1.1 under section 4.1, and attaches the
stated intro text to section 4.1. -/
theorem C1_amended :
    text_to_lines scenarioText = scenarioLines ∧
    (classify (gather_anchors scenarioLines) scenarioLines).2 =
      [⟨"4.1", "Enable logging", 0, 2⟩, ⟨"4.2", "Disable debug mode", 7, 8⟩] ∧
    (classify (gather_anchors scenarioLines) scenarioLines).1 =
      [⟨"4.1.1", "Configure log level (Automated)", 2, 7⟩] ∧
    extract_section (blockOf ⟨"4.1.1", "Configure log level (Automated)", 2, 7⟩ scenarioLines)
      "Description" = "Set the level to INFO or higher." ∧
    extract_section (blockOf ⟨"4.1.1", "Configure log level (Automated)", 2, 7⟩ scenarioLines)
      "Remediation" = "Run: set-log-level INFO" ∧
    longest_structural_parent "4.1.1"
      (((classify (gather_anchors scenarioLines) scenarioLines).2).map StructHeader.code) =
      some "4.1" ∧
    extract_intro_for_struct ⟨"4.1", "Enable logging", 0, 2⟩ scenarioLines =
      "Ensure logging is enabled for all requests." ∧
    extract_intro_for_struct ⟨"4.2", "Disable debug mode", 7, 8⟩ scenarioLines = "" := by
  exact ⟨rfl, rfl, rfl, rfl, rfl, rfl, rfl, rfl⟩

/-! ## C4: what the Line Reconstructor drops at emission -/

/-- C4, counterexample.  "1 http://x.com" is a URL-footnote breaking line
with nothing buffered before it, yet `text_to_lines` emits no logical line
at all for it: URL footnotes are dropped at emission (the source comment
says so), contradicting the claim that only TOC titles, TOC artifacts and
table-header captions are dropped and that a URL footnote appears as its
own logical line. -/
theorem C4_counterexample :
    is_url_footnote "1 http://x.com" = true ∧
    isBreakingLine "1 http://x.com" = true ∧
    pyStrip "1 http://x.com" ≠ "" ∧
    text_to_lines "1 http://x.com" = [] := by
  refine ⟨rfl, rfl, ?_, rfl⟩
  decide

/-- C4, amended: on a non-blank breaking line the reconstructor flushes the
narrative buffer and then emits the breaking line itself unless it is a URL
footnote, a static table-header caption, or a TOC title (these are dropped
at emission); in addition the final post-pass removes any produced line
still matching the TOC-title, TOC-artifact, or table-header predicates, so
TOC artifacts never survive to the output either. -/
theorem C4_amended :
    (∀ raw rest buf, pyStrip (pyRstrip raw) ≠ "" → isBreakingLine (pyRstrip raw) = true →
      text_to_lines_go (raw :: rest) buf =
        flushBuf buf ++
          (if dropOnEmit (pyRstrip raw) then [] else [collapse_spaces (pyRstrip raw)]) ++
          text_to_lines_go rest "") ∧
    (∀ text ln, ln ∈ text_to_lines text →
      tocTitleMatch ln = false ∧ is_toc_like ln = false ∧ is_table_header_line ln = false) := by
  constructor
  · intro raw rest buf h1 h2
    simp [text_to_lines_go, h1, h2]
  · intro text ln h
    have hk := (List.mem_filter.mp h).2
    simp only [scrubKeep, Bool.not_eq_true', Bool.or_eq_false_iff] at hk
    exact ⟨hk.1.1, hk.1.2, hk.2⟩

/-- Witness for C4's amended form: a numeric-header breaking line flushes
the buffer and is emitted (it is not a dropped kind), and a surviving
logical line of a reconstruction passes the post-pass predicates. -/
theorem C4_witness :
    (text_to_lines_go (("4.1 Enable" : String) :: []) "buffered text" =
      flushBuf "buffered text" ++
        (if dropOnEmit (pyRstrip "4.1 Enable") then []
         else [collapse_spaces (pyRstrip "4.1 Enable")]) ++
        text_to_lines_go [] "") ∧
    (tocTitleMatch "hello" = false ∧ is_toc_like "hello" = false ∧
      is_table_header_line "hello" = false) :=
  ⟨C4_amended.1 "4.1 Enable" [] "buffered text" (by decide) (by decide),
   C4_amended.2 "Page 3\nhello" "hello" (by decide)⟩

/-! ## C5: the title of a fallback-classified record -/

/-- Input on which the fallback ("Description:" before the next numeric
header) classifies the anchor, while narrative text sits between the anchor
line and the "Description:" header. -/
def fallbackLines : List String :=
  ["1.1 Some title", "extra words", "Description:", "body"]

/-- C5, counterexample.  The anchor 1.1 is classified as a Record by the
fallback test (its header block carries no status tag), yet its title is
"Some title extra words" — the header block's title remainder, which
absorbed the following narrative line — not the anchor's own same-line
title "Some title". -/
theorem C5_counterexample :
    gather_anchors fallbackLines = [⟨"1.1", "Some title", 0, 4⟩] ∧
    endsWithStatusTag (header_block_text ⟨"1.1", "Some title", 0, 4⟩ fallbackLines 3) = false ∧
    fallbackScan (followLines 0 4 fallbackLines) = true ∧
    (classify (gather_anchors fallbackLines) fallbackLines).1.map Control.title =
      ["Some title extra words"] ∧
    "Some title extra words" ≠ "Some title" := by
  refine ⟨rfl, rfl, rfl, rfl, ?_⟩
  decide

/-! ## C8: the Section Extractor -/

theorem collectBody_eq_takeWhile (l : List String) :
    collectBody l = l.takeWhile (fun ln => !isHbStop ln) := by
  induction l with
  | nil => rfl
  | cons ln rest ih =>
    by_cases h : isHbStop ln
    · simp [collectBody, List.takeWhile_cons, h]
    · simp only [Bool.not_eq_true] at h
      simp [collectBody, List.takeWhile_cons, h, ih]

/-- C8: `extract_section` finds the first line whose trimmed,
colon-stripped, case-insensitive text equals the label, returns the
following lines up to the next stop line (numeric header, named section
header, TOC artifact, table-header caption, or URL footnote) joined with
line breaks and trimmed; when no line matches it returns `""` instead of
failing. -/
theorem C8_extract_section (block : List String) (name : String) :
    ((∀ ln ∈ block, labelEq name ln = false) → extract_section block name = "") ∧
    (∀ pre mid post, block = pre ++ mid :: post → (∀ x ∈ pre, labelEq name x = false) →
      labelEq name mid = true →
      extract_section block name =
        pyStrip (String.intercalate "\n" (post.takeWhile (fun ln => !isHbStop ln)))) := by
  induction block with
  | nil =>
    refine ⟨fun _ => rfl, fun pre mid post heq _ _ => ?_⟩
    exact absurd heq (by simp)
  | cons ln rest ih =>
    constructor
    · intro hall
      have hpl : labelEq name ln = false := hall ln (by simp)
      have hstep : extract_section (ln :: rest) name = extract_section rest name := by
        simp [extract_section, extractSectionGo, hpl]
      rw [hstep]
      exact ih.1 (fun x hx => hall x (by simp [hx]))
    · intro pre mid post heq hpre hmid
      cases pre with
      | nil =>
        simp only [List.nil_append] at heq
        cases heq
        simp [extract_section, extractSectionGo, hmid, collectBody_eq_takeWhile]
      | cons x pre' =>
        simp only [List.cons_append, List.cons.injEq] at heq
        obtain ⟨rfl, heq'⟩ := heq
        have hpl : labelEq name ln = false := hpre ln (by simp)
        have hstep : extract_section (ln :: rest) name = extract_section rest name := by
          simp [extract_section, extractSectionGo, hpl]
        rw [hstep]
        exact ih.2 pre' mid post heq' (fun y hy => hpre y (by simp [hy])) hmid

/-- Witness for C8 at concrete inputs: an absent label yields `""`, and a
present label yields the lines up to the next section header. -/
theorem C8_witness :
    extract_section ["no match here"] "Description" = "" ∧
    extract_section ["x", "Description:", "a", "b", "Remediation:", "c"] "Description" =
      pyStrip (String.intercalate "\n"
        ((["a", "b", "Remediation:", "c"] : List String).takeWhile
          (fun ln => !isHbStop ln))) :=
  ⟨(C8_extract_section ["no match here"] "Description").1 (by decide),
   (C8_extract_section ["x", "Description:", "a", "b", "Remediation:", "c"] "Description").2
     ["x"] "Description:" ["a", "b", "Remediation:", "c"] (by decide) (by decide) (by decide)⟩

/-! ## C9: zero records abort the run -/

/-- C9: when classification yields zero Records the pipeline aborts with the
descriptive message (modelling `raise SystemExit(...)`, a non-zero exit,
before any document is rendered); with at least one Record it proceeds and
hands the classified data to the renderer. -/
theorem C9_zero_records_abort (raw : String) :
    ((classify (gather_anchors (text_to_lines (normalize_text raw)))
        (text_to_lines (normalize_text raw))).1 = [] →
      runPipeline raw =
        Except.error "No controls detected. Try adjusting detection heuristics.") ∧
    ((classify (gather_anchors (text_to_lines (normalize_text raw)))
        (text_to_lines (normalize_text raw))).1 ≠ [] →
      runPipeline raw =
        Except.ok
          ((classify (gather_anchors (text_to_lines (normalize_text raw)))
              (text_to_lines (normalize_text raw))).1,
           (classify (gather_anchors (text_to_lines (normalize_text raw)))
              (text_to_lines (normalize_text raw))).2,
           text_to_lines (normalize_text raw))) := by
  constructor
  · intro h
    simp [runPipeline, h, List.isEmpty_iff]
  · intro h
    simp [runPipeline, List.isEmpty_iff, h]

/-- Witness for C9: a lone structural header aborts with the message; the
scenario text (which contains a record) proceeds to rendering. -/
theorem C9_witness :
    runPipeline "4.1 Just a section" =
      Except.error "No controls detected. Try adjusting detection heuristics." ∧
    runPipeline scenarioText =
      Except.ok
        ((classify (gather_anchors (text_to_lines (normalize_text scenarioText)))
            (text_to_lines (normalize_text scenarioText))).1,
         (classify (gather_anchors (text_to_lines (normalize_text scenarioText)))
            (text_to_lines (normalize_text scenarioText))).2,
         text_to_lines (normalize_text scenarioText)) :=
  ⟨(C9_zero_records_abort "4.1 Just a section").1 (by decide),
   (C9_zero_records_abort scenarioText).2 (by decide)⟩

/-! ## Facts about the Anchor Scanner -/

theorem rawAnchorIdxs_sorted (lines : List String) :
    List.Sorted (· < ·) (rawAnchorIdxs lines) :=
  (List.sorted_lt_range lines.length).filter _

theorem rawAnchorIdxs_mem (lines : List String) (i : Nat) :
    i ∈ rawAnchorIdxs lines ↔ i < lines.length ∧ isAnchorLine (lineAt lines i) = true := by
  simp [rawAnchorIdxs, List.mem_filter, List.mem_range]

theorem dedupByCode_sublist (lines : List String) :
    ∀ (is : List Nat) (seen : List String), List.Sublist (dedupByCode lines is seen) is := by
  intro is
  induction is with
  | nil => intro seen; simp [dedupByCode]
  | cons r rs ih =>
    intro seen
    by_cases hr : codeOf (lineAt lines r) ∈ seen
    · simp only [dedupByCode, if_pos hr]
      exact (ih seen).cons r
    · simp only [dedupByCode, if_neg hr]
      exact (ih _).cons₂ r

theorem dedupByCode_first (lines : List String) :
    ∀ (is : List Nat) (seen : List String), List.Sorted (· < ·) is →
      ∀ i ∈ dedupByCode lines is seen,
        i ∈ is ∧ codeOf (lineAt lines i) ∉ seen ∧
          ∀ j ∈ is, codeOf (lineAt lines j) = codeOf (lineAt lines i) → i ≤ j := by
  intro is
  induction is with
  | nil => intro seen _ i hi; simp [dedupByCode] at hi
  | cons r rs ih =>
    intro seen hs i hi
    have hs' : List.Sorted (· < ·) rs := (List.sorted_cons.mp hs).2
    have hlt : ∀ b ∈ rs, r < b := (List.sorted_cons.mp hs).1
    by_cases hr : codeOf (lineAt lines r) ∈ seen
    · simp only [dedupByCode, if_pos hr] at hi
      obtain ⟨h1, h2, h3⟩ := ih seen hs' i hi
      refine ⟨List.mem_cons_of_mem r h1, h2, ?_⟩
      intro j hj hcode
      rcases List.mem_cons.mp hj with rfl | hj'
      · exact absurd (hcode ▸ hr) h2
      · exact h3 j hj' hcode
    · simp only [dedupByCode, if_neg hr] at hi
      rcases List.mem_cons.mp hi with rfl | hi'
      · refine ⟨List.mem_cons_self _ _, hr, ?_⟩
        intro j hj _
        rcases List.mem_cons.mp hj with rfl | hj'
        · exact le_refl _
        · exact le_of_lt (hlt j hj')
      · obtain ⟨h1, h2, h3⟩ := ih _ hs' i hi'
        have hne : codeOf (lineAt lines i) ≠ codeOf (lineAt lines r) :=
          fun hc => h2 (by simp [hc])
        refine ⟨List.mem_cons_of_mem r h1, fun hc => h2 (by simp [hc]), ?_⟩
        intro j hj hcode
        rcases List.mem_cons.mp hj with rfl | hj'
        · exact absurd hcode.symm hne
        · exact h3 j hj' hcode

theorem dedupByCode_nodup (lines : List String) :
    ∀ (is : List Nat) (seen : List String),
      (∀ i ∈ dedupByCode lines is seen, codeOf (lineAt lines i) ∉ seen) ∧
      ((dedupByCode lines is seen).map (fun i => codeOf (lineAt lines i))).Nodup := by
  intro is
  induction is with
  | nil => intro seen; simp [dedupByCode]
  | cons r rs ih =>
    intro seen
    by_cases hr : codeOf (lineAt lines r) ∈ seen
    · simp only [dedupByCode, if_pos hr]
      exact ih seen
    · simp only [dedupByCode, if_neg hr]
      constructor
      · intro i hi
        rcases List.mem_cons.mp hi with rfl | hi'
        · exact hr
        · have := (ih (codeOf (lineAt lines r) :: seen)).1 i hi'
          exact fun hc => this (by simp [hc])
      · rw [List.map_cons, List.nodup_cons]
        constructor
        · intro hmem
          obtain ⟨i, hi, hcode⟩ := List.mem_map.mp hmem
          have := (ih (codeOf (lineAt lines r) :: seen)).1 i hi
          exact this (by simp [hcode])
        · exact (ih _).2

theorem anchorIdxs_eq (lines : List String) :
    anchorIdxs lines = dedupByCode lines (rawAnchorIdxs lines) [] := by
  unfold anchorIdxs
  exact List.Sorted.insertionSort_eq
    (List.Sorted.le_of_lt
      ((rawAnchorIdxs_sorted lines).sublist (dedupByCode_sublist lines _ [])))

theorem anchorIdxs_sorted (lines : List String) :
    List.Sorted (· < ·) (anchorIdxs lines) := by
  rw [anchorIdxs_eq]
  exact (rawAnchorIdxs_sorted lines).sublist (dedupByCode_sublist lines _ [])

theorem mkAnchors_map_start (lines : List String) :
    ∀ is : List Nat, (mkAnchors lines is).map Anchor.start = is := by
  intro is
  induction is with
  | nil => rfl
  | cons i rest ih => simp [mkAnchors, ih]

theorem mkAnchors_map_code (lines : List String) :
    ∀ is : List Nat,
      (mkAnchors lines is).map Anchor.code = is.map (fun i => codeOf (lineAt lines i)) := by
  intro is
  induction is with
  | nil => rfl
  | cons i rest ih => simp [mkAnchors, ih]

theorem mkAnchors_mem (lines : List String) :
    ∀ (is : List Nat) (a : Anchor), a ∈ mkAnchors lines is →
      a.start ∈ is ∧ a.code = codeOf (lineAt lines a.start) ∧
        a.title = titleOf (lineAt lines a.start) := by
  intro is
  induction is with
  | nil => intro a ha; simp [mkAnchors] at ha
  | cons i rest ih =>
    intro a ha
    rcases List.mem_cons.mp ha with rfl | ha'
    · exact ⟨List.mem_cons_self _ _, rfl, rfl⟩
    · obtain ⟨h1, h2, h3⟩ := ih a ha'
      exact ⟨List.mem_cons_of_mem i h1, h2, h3⟩

theorem mkAnchors_chain (lines : List String) :
    ∀ is : List Nat, List.Chain' (fun a b => a.endIdx = b.start) (mkAnchors lines is) := by
  intro is
  induction is with
  | nil => simp [mkAnchors]
  | cons i rest ih =>
    cases rest with
    | nil => simp [mkAnchors]
    | cons j rest' =>
      have hd : mkAnchors lines (i :: j :: rest') =
          ⟨codeOf (lineAt lines i), titleOf (lineAt lines i), i, j⟩ ::
            mkAnchors lines (j :: rest') := rfl
      rw [hd]
      exact List.Chain'.cons rfl ih

theorem mkAnchors_getLast (lines : List String) :
    ∀ (is : List Nat) (h : mkAnchors lines is ≠ []),
      ((mkAnchors lines is).getLast h).endIdx = lines.length := by
  intro is
  induction is with
  | nil => intro h; simp [mkAnchors] at h
  | cons i rest ih =>
    intro h
    cases rest with
    | nil => rfl
    | cons j rest' =>
      have hne : mkAnchors lines (j :: rest') ≠ [] := by
        intro hc
        have hms := mkAnchors_map_start lines (j :: rest')
        rw [hc] at hms
        simp at hms
      have ih' := ih hne
      revert h
      have hd : mkAnchors lines (i :: j :: rest') =
          ⟨codeOf (lineAt lines i), titleOf (lineAt lines i), i, j⟩ ::
            mkAnchors lines (j :: rest') := rfl
      rw [hd]
      intro h
      rw [List.getLast_cons hne]
      exact ih' 

theorem gather_anchors_sorted (lines : List String) :
    List.Pairwise (fun a b : Anchor => a.start < b.start) (gather_anchors lines) := by
  have h : List.Pairwise (· < ·) ((gather_anchors lines).map Anchor.start) := by
    rw [gather_anchors, mkAnchors_map_start]
    exact anchorIdxs_sorted lines
  exact (List.pairwise_map).mp h

theorem gather_codes_nodup (lines : List String) :
    ((gather_anchors lines).map Anchor.code).Nodup := by
  rw [gather_anchors, mkAnchors_map_code, anchorIdxs_eq]
  exact (dedupByCode_nodup lines _ []).2

theorem gather_mem (lines : List String) :
    ∀ a ∈ gather_anchors lines,
      a.start < lines.length ∧ isAnchorLine (lineAt lines a.start) = true ∧
      a.code = codeOf (lineAt lines a.start) ∧ a.title = titleOf (lineAt lines a.start) ∧
      ∀ j, j < a.start → isAnchorLine (lineAt lines j) = true →
        codeOf (lineAt lines j) ≠ a.code := by
  intro a ha
  obtain ⟨hstart, hcode, htitle⟩ := mkAnchors_mem lines _ a ha
  rw [anchorIdxs_eq] at hstart
  obtain ⟨hraw, -, hmin⟩ :=
    dedupByCode_first lines _ [] (rawAnchorIdxs_sorted lines) a.start hstart
  obtain ⟨hlt, hline⟩ := (rawAnchorIdxs_mem lines a.start).mp hraw
  refine ⟨hlt, hline, hcode, htitle, ?_⟩
  intro j hj hjline hjcode
  have hjraw : j ∈ rawAnchorIdxs lines :=
    (rawAnchorIdxs_mem lines j).mpr ⟨lt_trans hj hlt, hjline⟩
  have := hmin j hjraw (by rw [hjcode, hcode])
  omega

/-- C3: the Anchor Scanner is a pure function of the logical-line sequence
(determinism is inherent in the embedding), and its output is strictly
increasing by start index, has pairwise-distinct codes, chains each
anchor's end to the next anchor's start, ends the last anchor at the line
count, and takes each code's first occurrence (an earlier anchor-shaped
line never carries the same code). -/
theorem C3_anchor_invariants (lines : List String) :
    List.Pairwise (fun a b : Anchor => a.start < b.start) (gather_anchors lines) ∧
    ((gather_anchors lines).map Anchor.code).Nodup ∧
    List.Chain' (fun a b => a.endIdx = b.start) (gather_anchors lines) ∧
    (∀ h : gather_anchors lines ≠ [], ((gather_anchors lines).getLast h).endIdx = lines.length) ∧
    (∀ a ∈ gather_anchors lines,
      isAnchorLine (lineAt lines a.start) = true ∧
      a.code = codeOf (lineAt lines a.start) ∧
      a.title = titleOf (lineAt lines a.start) ∧
      ∀ j, j < a.start → isAnchorLine (lineAt lines j) = true →
        codeOf (lineAt lines j) ≠ a.code) :=
  ⟨gather_anchors_sorted lines, gather_codes_nodup lines, mkAnchors_chain lines _,
   fun h => mkAnchors_getLast lines _ h,
   fun a ha => ⟨(gather_mem lines a ha).2.1, (gather_mem lines a ha).2.2.1,
     (gather_mem lines a ha).2.2.2.1, (gather_mem lines a ha).2.2.2.2⟩⟩

/-- Input with a running-header duplicate of code 1: the scanner keeps only
the first occurrence. -/
def demoLines : List String := ["1 alpha", "narrative text", "1 alpha", "2 beta"]

/-- Witness for C3 on `demoLines` (code 1 repeats at index 2 and is
discarded): the last anchor ends at the line count, and the anchor for
code 2 is the first line carrying that code. -/
theorem C3_witness :
    ((gather_anchors demoLines).getLast (by decide)).endIdx = demoLines.length ∧
    codeOf (lineAt demoLines 0) ≠ (⟨"2", "beta", 3, 4⟩ : Anchor).code :=
  ⟨(C3_anchor_invariants demoLines).2.2.2.1 (by decide),
   ((C3_anchor_invariants demoLines).2.2.2.2 ⟨"2", "beta", 3, 4⟩
     (by decide)).2.2.2 0 (by decide) (by decide)⟩

/-! ## Facts about the Classifier -/

theorem classifyGo_spec (lines : List String) :
    ∀ (anchors : List Anchor) (cs : List Control) (ss : List StructHeader),
      (anchors.map Anchor.code).Nodup →
      (∀ a ∈ anchors, (∀ x ∈ cs, x.cid ≠ a.code) ∧ (∀ x ∈ ss, x.code ≠ a.code)) →
      classifyGo lines anchors cs ss =
        (cs ++ (anchors.filter (fun a => is_control_anchor a lines)).map
            (fun a => mkControl a lines),
         ss ++ (anchors.filter (fun a => !is_control_anchor a lines)).map mkStruct) := by
  intro anchors
  induction anchors with
  | nil => intro cs ss _ _; simp [classifyGo]
  | cons a rest ih =>
    intro cs ss hnd hfresh
    have hndrest : (rest.map Anchor.code).Nodup := (List.nodup_cons.mp hnd).2
    have hanotin : a.code ∉ rest.map Anchor.code := (List.nodup_cons.mp hnd).1
    obtain ⟨hfc, hfs⟩ := hfresh a (List.mem_cons_self a rest)
    by_cases hc : is_control_anchor a lines
    · have hset : setdefaultC cs (mkControl a lines) = cs ++ [mkControl a lines] := by
        unfold setdefaultC
        rw [if_neg]
        simp only [List.any_eq_true, beq_iff_eq, not_exists, not_and]
        intro x hx
        exact hfc x hx
      rw [classifyGo, if_pos hc, hset,
        ih (cs ++ [mkControl a lines]) ss hndrest ?_]
      · rw [List.filter_cons_of_pos (by simp [hc]),
          List.filter_cons_of_neg (by simp [hc])]
        simp
      · intro b hb
        refine ⟨?_, (hfresh b (List.mem_cons_of_mem a hb)).2⟩
        intro x hx
        rcases List.mem_append.mp hx with hx' | hx'
        · exact (hfresh b (List.mem_cons_of_mem a hb)).1 x hx'
        · rcases List.mem_singleton.mp hx' with rfl
          show a.code ≠ b.code
          intro hcontra
          exact hanotin (hcontra ▸ List.mem_map_of_mem Anchor.code hb)
    · have hset : setdefaultS ss (mkStruct a) = ss ++ [mkStruct a] := by
        unfold setdefaultS
        rw [if_neg]
        simp only [List.any_eq_true, beq_iff_eq, not_exists, not_and]
        intro x hx
        exact hfs x hx
      rw [classifyGo, if_neg hc, hset,
        ih cs (ss ++ [mkStruct a]) hndrest ?_]
      · rw [List.filter_cons_of_neg (by simp [hc]),
          List.filter_cons_of_pos (by simp [hc])]
        simp
      · intro b hb
        refine ⟨(hfresh b (List.mem_cons_of_mem a hb)).1, ?_⟩
        intro x hx
        rcases List.mem_append.mp hx with hx' | hx'
        · exact (hfresh b (List.mem_cons_of_mem a hb)).2 x hx'
        · rcases List.mem_singleton.mp hx' with rfl
          show a.code ≠ b.code
          intro hcontra
          exact hanotin (hcontra ▸ List.mem_map_of_mem Anchor.code hb)

theorem classify_gather_controls (lines : List String) :
    (classify (gather_anchors lines) lines).1 =
      ((gather_anchors lines).filter (fun a => is_control_anchor a lines)).map
        (fun a => mkControl a lines) := by
  unfold classify
  rw [classifyGo_spec lines _ [] [] (gather_codes_nodup lines)
    (fun a _ => ⟨fun x hx => absurd hx (List.not_mem_nil x),
                 fun x hx => absurd hx (List.not_mem_nil x)⟩)]
  simp

theorem classify_gather_structs (lines : List String) :
    (classify (gather_anchors lines) lines).2 =
      ((gather_anchors lines).filter (fun a => !is_control_anchor a lines)).map mkStruct := by
  unfold classify
  rw [classifyGo_spec lines _ [] [] (gather_codes_nodup lines)
    (fun a _ => ⟨fun x hx => absurd hx (List.not_mem_nil x),
                 fun x hx => absurd hx (List.not_mem_nil x)⟩)]
  simp

/-- C2: over the anchors produced by the Anchor Scanner, the Classifier
assigns every anchor code to exactly one of Record (control) or
StructuralSection — the union of the two code sets is exactly the anchor
code set, and the two sets are disjoint. -/
theorem C2_classification_total_disjoint (lines : List String) :
    (∀ code : String,
      (code ∈ (classify (gather_anchors lines) lines).1.map Control.cid ∨
       code ∈ (classify (gather_anchors lines) lines).2.map StructHeader.code) ↔
      code ∈ (gather_anchors lines).map Anchor.code) ∧
    (∀ code : String,
      code ∈ (classify (gather_anchors lines) lines).1.map Control.cid →
      code ∉ (classify (gather_anchors lines) lines).2.map StructHeader.code) := by
  have hc := classify_gather_controls lines
  have hs := classify_gather_structs lines
  constructor
  · intro code
    rw [hc, hs]
    simp only [List.map_map, List.mem_map, Function.comp, List.mem_filter]
    constructor
    · rintro (⟨a, ⟨ha, -⟩, rfl⟩ | ⟨a, ⟨ha, -⟩, rfl⟩)
      · exact ⟨a, ha, rfl⟩
      · exact ⟨a, ha, rfl⟩
    · rintro ⟨a, ha, rfl⟩
      by_cases hctrl : is_control_anchor a lines
      · exact Or.inl ⟨a, ⟨ha, by simp [hctrl]⟩, rfl⟩
      · exact Or.inr ⟨a, ⟨ha, by simp [hctrl]⟩, rfl⟩
  · intro code hmem1 hmem2
    rw [hc] at hmem1
    rw [hs] at hmem2
    simp only [List.map_map, List.mem_map, Function.comp, List.mem_filter] at hmem1 hmem2
    obtain ⟨a, ⟨ha, hactrl⟩, hacode⟩ := hmem1
    obtain ⟨b, ⟨hb, hbctrl⟩, hbcode⟩ := hmem2
    have hab : a = b := by
      apply List.inj_on_of_nodup_map (gather_codes_nodup lines) ha hb
      show a.code = b.code
      have hacode' : a.code = code := hacode
      have hbcode' : b.code = code := hbcode
      rw [hacode', hbcode']
    rw [hab] at hactrl
    simp only [Bool.not_eq_true'] at hbctrl
    rw [hbctrl] at hactrl
    exact Bool.false_ne_true hactrl

/-- Witness for C2 on the spec's scenario: code 4.1.1 is a Record code and
therefore not a StructuralSection code, and membership in the union is
equivalent to membership among the anchor codes. -/
theorem C2_witness :
    "4.1.1" ∉ (classify (gather_anchors scenarioLines) scenarioLines).2.map StructHeader.code ∧
    ("4.1" ∈ (classify (gather_anchors scenarioLines) scenarioLines).1.map Control.cid ∨
     "4.1" ∈ (classify (gather_anchors scenarioLines) scenarioLines).2.map StructHeader.code) :=
  ⟨(C2_classification_total_disjoint scenarioLines).2 "4.1.1" (by decide),
   ((C2_classification_total_disjoint scenarioLines).1 "4.1").mpr (by decide)⟩

/-! ## C6: a status tag in the header block forces a Record -/

/-- C6: for any anchor of the scan, if its header block — the anchor's own
line plus up to 3 following lines, stopping early at numeric headers,
section headers, TOC artifacts, table captions, or URL footnotes — ends
with "(Automated)" or "(Manual)" after trimming trailing whitespace, the
anchor is classified as a Record (and not as a StructuralSection), even
when the tag sits on the last line the 3-line lookahead can reach. -/
theorem C6_status_tag_forces_record (lines : List String) (a : Anchor)
    (ha : a ∈ gather_anchors lines)
    (htag : endsWithStatusTag (header_block_text a lines 3) = true) :
    is_control_anchor a lines = true ∧
    a.code ∈ (classify (gather_anchors lines) lines).1.map Control.cid ∧
    a.code ∉ (classify (gather_anchors lines) lines).2.map StructHeader.code := by
  have hctrl : is_control_anchor a lines = true := by
    unfold is_control_anchor
    rw [htag]
    rfl
  refine ⟨hctrl, ?_, ?_⟩
  · rw [classify_gather_controls]
    simp only [List.map_map, List.mem_map, Function.comp, List.mem_filter]
    exact ⟨a, ⟨ha, hctrl⟩, rfl⟩
  · rw [classify_gather_structs]
    simp only [List.map_map, List.mem_map, Function.comp, List.mem_filter]
    rintro ⟨b, ⟨hb, hbctrl⟩, hbcode⟩
    have hab : b = a := by
      apply List.inj_on_of_nodup_map (gather_codes_nodup lines) hb ha
      exact hbcode
    rw [hab, hctrl] at hbctrl
    simp at hbctrl

/-- A title wrapped over three continuation lines, with the status tag on
the third following line — the boundary of the 3-line lookahead. -/
def wrappedLines : List String :=
  ["1.1 Very", "long", "wrapped title", "here (Automated)", "Description:"]

/-- Witness for C6 at the lookahead boundary: the tag on the third
following line still classifies 1.1 as a Record. -/
theorem C6_witness :
    is_control_anchor ⟨"1.1", "Very", 0, 5⟩ wrappedLines = true ∧
    (⟨"1.1", "Very", 0, 5⟩ : Anchor).code ∈
      (classify (gather_anchors wrappedLines) wrappedLines).1.map Control.cid ∧
    (⟨"1.1", "Very", 0, 5⟩ : Anchor).code ∉
      (classify (gather_anchors wrappedLines) wrappedLines).2.map StructHeader.code :=
  C6_status_tag_forces_record wrappedLines ⟨"1.1", "Very", 0, 5⟩ (by decide) (by decide)

/-- C5, amended: a Record classified by the fallback test (no status tag in
the header block, but a "Description" section header before the next
numeric header) gets as its title the header block's title remainder — the
anchor's same-line title possibly extended by up to three absorbed
follow-up lines — not necessarily the anchor's same-line title alone. -/
theorem C5_amended (lines : List String) (a : Anchor)
    (ha : a ∈ gather_anchors lines)
    (hfb : fallbackScan (followLines a.start a.endIdx lines) = true) :
    ∃ c ∈ (classify (gather_anchors lines) lines).1,
      c.cid = a.code ∧ c.title = hbTitle a lines := by
  have hctrl : is_control_anchor a lines = true := by
    unfold is_control_anchor
    rw [hfb]
    simp
  rw [classify_gather_controls]
  refine ⟨mkControl a lines, ?_, rfl, rfl⟩
  exact List.mem_map_of_mem _ (List.mem_filter.mpr ⟨ha, by simp [hctrl]⟩)

/-- Witness for C5's amended form on `fallbackLines`. -/
theorem C5_witness :
    ∃ c ∈ (classify (gather_anchors fallbackLines) fallbackLines).1,
      c.cid = (⟨"1.1", "Some title", 0, 4⟩ : Anchor).code ∧
      c.title = hbTitle ⟨"1.1", "Some title", 0, 4⟩ fallbackLines :=
  C5_amended fallbackLines ⟨"1.1", "Some title", 0, 4⟩ (by decide) (by decide)

/-! ## Facts about the Hierarchy Builder -/

theorem lspLoop_none_iff (parts smap : List String) :
    ∀ l, lspLoop parts smap l = none ↔
      ∀ L, 1 ≤ L → L ≤ l → dotJoin (parts.take L) ∉ smap := by
  intro l
  induction l with
  | zero =>
    constructor
    · intro _ L h1 h2
      omega
    · intro _
      rfl
  | succ l ih =>
    by_cases hm : dotJoin (parts.take (l + 1)) ∈ smap
    · simp only [lspLoop, if_pos hm]
      constructor
      · intro h
        simp at h
      · intro h
        exact absurd hm (h (l + 1) (by omega) (le_refl _))
    · simp only [lspLoop, if_neg hm]
      rw [ih]
      constructor
      · intro h L h1 h2
        by_cases hL : L ≤ l
        · exact h L h1 hL
        · have hLe : L = l + 1 := by omega
          rw [hLe]
          exact hm
      · intro h L h1 h2
        exact h L h1 (by omega)

theorem lspLoop_some_spec (parts smap : List String) :
    ∀ l p, lspLoop parts smap l = some p →
      ∃ L, 1 ≤ L ∧ L ≤ l ∧ p = dotJoin (parts.take L) ∧ p ∈ smap ∧
        ∀ M, L < M → M ≤ l → dotJoin (parts.take M) ∉ smap := by
  intro l
  induction l with
  | zero =>
    intro p h
    simp [lspLoop] at h
  | succ l ih =>
    intro p h
    by_cases hm : dotJoin (parts.take (l + 1)) ∈ smap
    · simp only [lspLoop, if_pos hm, Option.some.injEq] at h
      refine ⟨l + 1, by omega, le_refl _, h.symm, h ▸ hm, ?_⟩
      intro M h1 h2
      omega
    · simp only [lspLoop, if_neg hm] at h
      obtain ⟨L, hL1, hL2, hp, hmem, hmax⟩ := ih p h
      refine ⟨L, hL1, by omega, hp, hmem, ?_⟩
      intro M hM1 hM2
      by_cases hM : M ≤ l
      · exact hmax M hM1 hM
      · have hMe : M = l + 1 := by omega
        rw [hMe]
        exact hm

theorem splitCharL_ne_nil (sep : Char) : ∀ l : List Char, splitCharL sep l ≠ [] := by
  intro l
  induction l with
  | nil => simp [splitCharL]
  | cons c rest ih =>
    by_cases hc : c = sep
    · simp [splitCharL, hc]
    · cases hsc : splitCharL sep rest with
      | nil => exact absurd hsc ih
      | cons g gs => simp [splitCharL, hc, hsc]

theorem splitCharL_singleton (sep : Char) :
    ∀ (l : List Char) (g : List Char), splitCharL sep l = [g] → g = l := by
  intro l
  induction l with
  | nil =>
    intro g h
    simp [splitCharL] at h
    exact h
  | cons c rest ih =>
    intro g h
    by_cases hc : c = sep
    · simp only [splitCharL, if_pos hc] at h
      have : splitCharL sep rest = [] := by
        cases hsc : splitCharL sep rest
        · rfl
        · rw [hsc] at h
          simp at h
      exact absurd this (splitCharL_ne_nil sep rest)
    · cases hsc : splitCharL sep rest with
      | nil => exact absurd hsc (splitCharL_ne_nil sep rest)
      | cons g' gs =>
        have hstep : splitCharL sep (c :: rest) = (c :: g') :: gs := by
          simp [splitCharL, hc, hsc]
        rw [hstep] at h
        simp only [List.cons.injEq] at h
        have hg' : g' = rest := by
          apply ih
          rw [hsc, h.2]
        rw [← h.1, hg']

theorem splitDots_ne_nil (code : String) : splitDots code ≠ [] := by
  unfold splitDots splitChar
  intro h
  exact splitCharL_ne_nil '.' code.toList (List.map_eq_nil_iff.mp h)

theorem splitDots_singleton (code x : String) (h : splitDots code = [x]) : x = code := by
  unfold splitDots splitChar at h
  cases hsc : splitCharL '.' code.toList with
  | nil => exact absurd hsc (splitCharL_ne_nil '.' code.toList)
  | cons g gs =>
    rw [hsc] at h
    simp only [List.map_cons, List.cons.injEq] at h
    obtain ⟨hx, hgs⟩ := h
    have hgsnil : gs = [] := List.map_eq_nil_iff.mp hgs
    have hg : g = code.toList := by
      apply splitCharL_singleton '.' code.toList g
      rw [hsc, hgsnil]
    rw [← hx, hg]
    rfl

theorem count_filter_of_pos {α : Type} [BEq α] [LawfulBEq α] (p : α → Bool) (c : α)
    (hc : p c = true) : ∀ l : List α, (l.filter p).count c = l.count c := by
  intro l
  induction l with
  | nil => rfl
  | cons x xs ih =>
    by_cases hx : p x = true
    · rw [List.filter_cons_of_pos hx, List.count_cons, List.count_cons, ih]
    · rw [List.filter_cons_of_neg (by simp [hx]), ih, List.count_cons]
      have hxc : (x == c) = false := by
        cases hbeq : x == c
        · rfl
        · exact absurd (eq_of_beq hbeq ▸ hc) hx
      rw [hxc]
      simp

theorem lsp_match_eq (code : String) (smap : List String) :
    longest_structural_parent code smap =
      (match lspLoop (splitDots code) smap ((splitDots code).length - 1) with
       | some p => some p
       | none =>
         if (splitDots code).headD "" ∈ smap then some ((splitDots code).headD "")
         else none) := rfl

/-- C7: `longest_structural_parent` returns the longest proper dotted-code
prefix of the record code present among the structural codes (testing from
all-but-last component down to the first component), or `none` when no
proper prefix at any depth is structural; the placement loop then puts each
Record exactly once — into the bucket of the returned parent, or into the
orphan (unplaced) list, never both, never twice, never dropped. -/
theorem C7_longest_parent_placement (smap : List String) :
    (∀ code : String, code ∉ smap →
      (∀ p, longest_structural_parent code smap = some p →
        ∃ L, 1 ≤ L ∧ L < (splitDots code).length ∧
          p = dotJoin ((splitDots code).take L) ∧ p ∈ smap ∧
          ∀ M, L < M → M < (splitDots code).length →
            dotJoin ((splitDots code).take M) ∉ smap) ∧
      (longest_structural_parent code smap = none →
        ∀ L, 1 ≤ L → L < (splitDots code).length →
          dotJoin ((splitDots code).take L) ∉ smap)) ∧
    (∀ (controls : List Control) (c : Control), c ∈ controls →
      (longest_structural_parent c.cid smap = none →
        (orphanControls controls smap).count c = controls.count c ∧
        ∀ p, c ∉ bucketControls controls smap p) ∧
      (∀ p, longest_structural_parent c.cid smap = some p →
        (bucketControls controls smap p).count c = controls.count c ∧
        c ∉ orphanControls controls smap ∧
        ∀ q, q ≠ p → c ∉ bucketControls controls smap q)) := by
  constructor
  · intro code hns
    have hpne : splitDots code ≠ [] := splitDots_ne_nil code
    have hplen : 1 ≤ (splitDots code).length := List.length_pos.mpr hpne
    constructor
    · intro p hp
      cases hm : lspLoop (splitDots code) smap ((splitDots code).length - 1) with
      | some q =>
        have hlv : longest_structural_parent code smap = some q := by
          rw [lsp_match_eq, hm]
        rw [hlv] at hp
        simp only [Option.some.injEq] at hp
        obtain ⟨L, h1, h2, h3, h4, h5⟩ := lspLoop_some_spec _ _ _ q hm
        rw [← hp]
        refine ⟨L, h1, by omega, h3, h4, ?_⟩
        intro M hM1 hM2
        exact h5 M hM1 (by omega)
      | none =>
        have hlv : longest_structural_parent code smap =
            (if (splitDots code).headD "" ∈ smap then some ((splitDots code).headD "")
             else none) := by
          rw [lsp_match_eq, hm]
        rw [hlv] at hp
        by_cases hh : (splitDots code).headD "" ∈ smap
        · exfalso
          cases hps : splitDots code with
          | nil => exact hpne hps
          | cons q qs =>
            cases qs with
            | nil =>
              have hq : q = code := splitDots_singleton code q hps
              rw [hps] at hh
              simp only [List.headD_cons] at hh
              exact hns (hq ▸ hh)
            | cons q2 qs2 =>
              have hlen2 : 2 ≤ (splitDots code).length := by
                rw [hps]
                simp
              have h1 := (lspLoop_none_iff _ _ _).mp hm 1 (by omega) (by omega)
              rw [hps] at h1 hh
              simp only [List.headD_cons] at hh
              have htake : dotJoin ((q :: q2 :: qs2).take 1) = q := rfl
              rw [htake] at h1
              exact h1 hh
        · rw [if_neg hh] at hp
          simp at hp
    · intro hnone L hL1 hL2
      cases hm : lspLoop (splitDots code) smap ((splitDots code).length - 1) with
      | some q =>
        have hlv : longest_structural_parent code smap = some q := by
          rw [lsp_match_eq, hm]
        rw [hlv] at hnone
        simp at hnone
      | none =>
        exact (lspLoop_none_iff _ _ _).mp hm L hL1 (by omega)
  · intro controls c hc
    constructor
    · intro hnone
      constructor
      · exact count_filter_of_pos _ c (by simp [hnone]) controls
      · intro p hmem
        have hpred := (List.mem_filter.mp hmem).2
        rw [hnone] at hpred
        simp at hpred
    · intro p hp
      refine ⟨count_filter_of_pos _ c (by simp [hp]) controls, ?_, ?_⟩
      · intro hmem
        have hpred := (List.mem_filter.mp hmem).2
        rw [hp] at hpred
        simp at hpred
      · intro q hq hmem
        have hpred := (List.mem_filter.mp hmem).2
        rw [hp] at hpred
        simp only [beq_iff_eq, Option.some.injEq] at hpred
        exact hq hpred.symm

/-- Witness for C7 on the spec's own example: with structural codes
4 and 4.1, record 4.1.2.9 is bucketed under 4.1 (its longest proper
prefix), and a record 9.9 with no structural prefix lands exactly once in
the orphan list. -/
theorem C7_witness :
    (∃ L, 1 ≤ L ∧ L < (splitDots "4.1.2.9").length ∧
      "4.1" = dotJoin ((splitDots "4.1.2.9").take L) ∧ "4.1" ∈ ["4", "4.1"] ∧
      ∀ M, L < M → M < (splitDots "4.1.2.9").length →
        dotJoin ((splitDots "4.1.2.9").take M) ∉ ["4", "4.1"]) ∧
    (orphanControls [⟨"9.9", "t", 0, 1⟩] ["4", "4.1"]).count ⟨"9.9", "t", 0, 1⟩ =
      ([⟨"9.9", "t", 0, 1⟩] : List Control).count ⟨"9.9", "t", 0, 1⟩ :=
  ⟨((C7_longest_parent_placement ["4", "4.1"]).1 "4.1.2.9" (by decide)).1 "4.1" (by decide),
   (((C7_longest_parent_placement ["4", "4.1"]).2 [⟨"9.9", "t", 0, 1⟩] ⟨"9.9", "t", 0, 1⟩
     (by decide)).1 (by decide)).1⟩

/-! ## Facts about blank lines and non-empty output in the Line
Reconstructor -/

theorem mem_of_mem_dropWhile (p : Char → Bool) (l : List Char) (a : Char)
    (h : a ∈ l.dropWhile p) : a ∈ l := by
  have hsplit := List.takeWhile_append_dropWhile p l
  rw [← hsplit]
  exact List.mem_append_right _ h

theorem dropTrailing_eq_nil_iff (p : Char → Bool) (l : List Char) :
    dropTrailing p l = [] ↔ ∀ a ∈ l, p a := by
  unfold dropTrailing
  rw [List.reverse_eq_nil_iff, List.dropWhile_eq_nil_iff]
  constructor
  · intro h a ha
    exact h a (List.mem_reverse.mpr ha)
  · intro h a ha
    exact h a (List.mem_reverse.mp ha)

theorem mem_dropTrailing (p : Char → Bool) (l : List Char) (a : Char)
    (h : a ∈ dropTrailing p l) : a ∈ l := by
  unfold dropTrailing at h
  have h1 : a ∈ l.reverse.dropWhile p := List.mem_reverse.mp h
  exact List.mem_reverse.mp (mem_of_mem_dropWhile p l.reverse a h1)

theorem pyStrip_eq_empty_iff (s : String) :
    pyStrip s = "" ↔ ∀ a ∈ s.toList, pyIsSpace a := by
  constructor
  · intro h a ha
    have hdata : dropTrailing pyIsSpace (s.toList.dropWhile pyIsSpace) = [] :=
      congrArg String.data h
    rw [dropTrailing_eq_nil_iff] at hdata
    have hsplit := List.takeWhile_append_dropWhile pyIsSpace s.toList
    rw [← hsplit] at ha
    rcases List.mem_append.mp ha with hta | hda
    · exact List.mem_takeWhile_imp hta
    · exact hdata a hda
  · intro h
    have : dropTrailing pyIsSpace (s.toList.dropWhile pyIsSpace) = [] := by
      rw [dropTrailing_eq_nil_iff]
      intro a ha
      exact h a (mem_of_mem_dropWhile pyIsSpace s.toList a ha)
    show (⟨dropTrailing pyIsSpace (s.toList.dropWhile pyIsSpace)⟩ : String) = ""
    rw [this]

theorem pyStrip_pyRstrip_empty (raw : String) (h : pyStrip raw = "") :
    pyStrip (pyRstrip raw) = "" := by
  rw [pyStrip_eq_empty_iff] at h ⊢
  intro a ha
  exact h a (mem_dropTrailing pyIsSpace raw.toList a ha)

theorem any_ink_iff (s : String) :
    s.toList.any (fun c => !pyIsSpace c) = true ↔ pyStrip s ≠ "" := by
  rw [Ne, pyStrip_eq_empty_iff]
  simp only [List.any_eq_true, Bool.not_eq_true']
  constructor
  · rintro ⟨a, ha, hna⟩ hall
    have := hall a ha
    rw [hna] at this
    exact Bool.false_ne_true this
  · intro h
    by_contra hno
    apply h
    intro a ha
    by_contra hpa
    exact hno ⟨a, ha, by simpa using hpa⟩

theorem squeezeST_any (l : List Char) :
    ∀ b, l.any (fun c => !pyIsSpace c) = true →
      (squeezeST b l).any (fun c => !pyIsSpace c) = true := by
  induction l with
  | nil =>
    intro b h
    simp at h
  | cons c rest ih =>
    intro b h
    simp only [List.any_cons, Bool.or_eq_true] at h
    by_cases hst : isSpaceTab c = true
    · have hcor : c = ' ' ∨ c = '\t' := by simpa [isSpaceTab] using hst
      have hcws : pyIsSpace c = true := by
        rcases hcor with rfl | rfl <;> decide
      have hrest : rest.any (fun c => !pyIsSpace c) = true := by
        rcases h with hc | hr
        · rw [hcws] at hc
          simp at hc
        · exact hr
      have hihr := ih true hrest
      have hsp : pyIsSpace ' ' = true := rfl
      cases b with
      | true => simp [squeezeST, hst, hihr]
      | false => simp [squeezeST, hst, List.any_cons, hsp, hihr]
    · simp only [squeezeST, hst, Bool.false_eq_true, if_false, List.any_cons,
        Bool.or_eq_true]
      rcases h with hc | hr
      · exact Or.inl hc
      · exact Or.inr (ih false hr)

theorem collapse_ne_empty (s : String)
    (h : s.toList.any (fun c => !pyIsSpace c) = true) : collapse_spaces s ≠ "" := by
  unfold collapse_spaces
  apply (any_ink_iff ⟨squeezeST false s.toList⟩).mp
  exact squeezeST_any s.toList false h

theorem toList_append (a b : String) : (a ++ b).toList = a.toList ++ b.toList :=
  String.data_append a b

/-- The state invariant of the reconstruction loop: the narrative buffer is
empty or contains at least one non-whitespace char. -/
def BufOK (buf : String) : Prop :=
  buf = "" ∨ buf.toList.any (fun c => !pyIsSpace c) = true

theorem dropWhile_head_not (p : Char → Bool) :
    ∀ (l : List Char) (a : Char) (rest : List Char),
      l.dropWhile p = a :: rest → p a = false := by
  intro l
  induction l with
  | nil =>
    intro a rest h
    simp [List.dropWhile] at h
  | cons c cs ih =>
    intro a rest h
    rw [List.dropWhile_cons] at h
    by_cases hc : p c = true
    · rw [if_pos hc] at h
      exact ih a rest h
    · rw [if_neg hc] at h
      cases h
      simpa using hc

theorem strip_has_ink (t : String) (h : pyStrip t ≠ "") :
    (pyStrip t).toList.any (fun c => !pyIsSpace c) = true := by
  show (dropTrailing pyIsSpace (t.toList.dropWhile pyIsSpace)).any
    (fun c => !pyIsSpace c) = true
  have hne2 : (t.toList.dropWhile pyIsSpace).reverse.dropWhile pyIsSpace ≠ [] := by
    intro hc
    apply h
    show (⟨dropTrailing pyIsSpace (t.toList.dropWhile pyIsSpace)⟩ : String) = ""
    unfold dropTrailing
    rw [hc]
    rfl
  cases hd : (t.toList.dropWhile pyIsSpace).reverse.dropWhile pyIsSpace with
  | nil => exact absurd hd hne2
  | cons a rest =>
    have ha : pyIsSpace a = false := dropWhile_head_not pyIsSpace _ a rest hd
    rw [List.any_eq_true]
    refine ⟨a, ?_, by simp [ha]⟩
    show a ∈ ((t.toList.dropWhile pyIsSpace).reverse.dropWhile pyIsSpace).reverse
    rw [hd]
    simp

theorem bufAppend_ok (buf line : String) (hline : pyStrip line ≠ "")
    (h : BufOK buf) : BufOK (bufAppend buf line) := by
  unfold bufAppend
  by_cases hb : buf = ""
  · rw [if_pos hb]
    exact Or.inr (strip_has_ink line hline)
  · rw [if_neg hb]
    rcases h with rfl | hany
    · exact absurd rfl hb
    · right
      rw [toList_append, toList_append, List.any_append, List.any_append, hany]
      simp

theorem flushBuf_mem_ne (buf : String) (hb : BufOK buf) :
    ∀ ln ∈ flushBuf buf, ln ≠ "" := by
  intro ln hln
  unfold flushBuf at hln
  by_cases hbuf : buf = ""
  · rw [if_pos hbuf] at hln
    simp at hln
  · rcases hb with rfl | hany
    · exact absurd rfl hbuf
    · rw [if_neg hbuf] at hln
      rcases List.mem_singleton.mp hln with rfl
      exact collapse_ne_empty buf hany

theorem ttl_go_ne_empty :
    ∀ (raws : List String) (buf : String), BufOK buf →
      ∀ ln ∈ text_to_lines_go raws buf, ln ≠ "" := by
  intro raws
  induction raws with
  | nil =>
    intro buf hb ln hln
    exact flushBuf_mem_ne buf hb ln hln
  | cons r rs ih =>
    intro buf hb ln hln
    by_cases h1 : pyStrip (pyRstrip r) = ""
    · rw [show text_to_lines_go (r :: rs) buf =
          flushBuf buf ++ text_to_lines_go rs "" by
            simp [text_to_lines_go, h1]] at hln
      rcases List.mem_append.mp hln with hf | hrest
      · exact flushBuf_mem_ne buf hb ln hf
      · exact ih "" (Or.inl rfl) ln hrest
    · by_cases h2 : isBreakingLine (pyRstrip r) = true
      · rw [show text_to_lines_go (r :: rs) buf =
            flushBuf buf ++
              (if dropOnEmit (pyRstrip r) then [] else [collapse_spaces (pyRstrip r)]) ++
              text_to_lines_go rs "" by
              simp [text_to_lines_go, h1, h2]] at hln
        rcases List.mem_append.mp hln with hfe | hrest
        · rcases List.mem_append.mp hfe with hf | he
          · exact flushBuf_mem_ne buf hb ln hf
          · by_cases hd : dropOnEmit (pyRstrip r) = true
            · rw [if_pos hd] at he
              simp at he
            · rw [if_neg hd] at he
              rcases List.mem_singleton.mp he with rfl
              exact collapse_ne_empty (pyRstrip r) ((any_ink_iff (pyRstrip r)).mpr h1)
        · exact ih "" (Or.inl rfl) ln hrest
      · rw [show text_to_lines_go (r :: rs) buf =
            text_to_lines_go rs (bufAppend buf (pyRstrip r)) by
              simp [text_to_lines_go, h1, h2]] at hln
        exact ih (bufAppend buf (pyRstrip r)) (bufAppend_ok buf (pyRstrip r) h1 hb) ln hln

theorem ttl_go_blank_split (raw : String) (hblank : pyStrip raw = "") :
    ∀ (raws1 raws2 : List String) (buf : String),
      text_to_lines_go (raws1 ++ raw :: raws2) buf =
        text_to_lines_go raws1 buf ++ text_to_lines_go raws2 "" := by
  have hb : pyStrip (pyRstrip raw) = "" := pyStrip_pyRstrip_empty raw hblank
  intro raws1
  induction raws1 with
  | nil =>
    intro raws2 buf
    simp [text_to_lines_go, hb]
  | cons r rs ih =>
    intro raws2 buf
    simp only [List.cons_append]
    by_cases h1 : pyStrip (pyRstrip r) = ""
    · simp [text_to_lines_go, h1, ih, List.append_assoc]
    · by_cases h2 : isBreakingLine (pyRstrip r) = true
      · simp [text_to_lines_go, h1, h2, ih, List.append_assoc]
      · simp [text_to_lines_go, h1, h2, ih]

/-- C10: a blank (whitespace-only) raw line terminates the narrative buffer
without being emitted — the reconstruction of `raws1 ++ blank :: raws2`
is the reconstruction of `raws1` (its trailing buffer flushed) followed by
that of `raws2` started with an empty buffer, so narrative before and
after the blank line is never merged — and every logical line the
reconstructor emits is non-empty. -/
theorem C10_blank_line_behavior :
    (∀ (raws1 raws2 : List String) (raw : String), pyStrip raw = "" →
      text_to_lines_go (raws1 ++ raw :: raws2) "" =
        text_to_lines_go raws1 "" ++ text_to_lines_go raws2 "") ∧
    (∀ text : String, ∀ ln ∈ text_to_lines text, ln ≠ "") :=
  ⟨fun raws1 raws2 raw h => ttl_go_blank_split raw h raws1 raws2 "",
   fun _ ln hln => ttl_go_ne_empty _ "" (Or.inl rfl) ln (List.mem_filter.mp hln).1⟩

/-- Witness for C10: two narrative lines separated by a blank line come out
as two separate logical lines, and a concrete reconstructed line is
non-empty. -/
theorem C10_witness :
    text_to_lines_go (["narrative one"] ++ "" :: ["narrative two"]) "" =
      text_to_lines_go ["narrative one"] "" ++ text_to_lines_go ["narrative two"] "" ∧
    ("narrative one" : String) ≠ "" :=
  ⟨C10_blank_line_behavior.1 ["narrative one"] ["narrative two"] "" (by decide),
   C10_blank_line_behavior.2 "narrative one\n\nnarrative two" "narrative one" (by decide)⟩

end CisToWord
